import Mathlib

/-!
Shallow embedding of the `discord-cluster` messaging core, translated from
the TypeScript sources:

* `src/ipc/IPCHandler.ts`   — request/response/broadcast correlation
* `src/utils/ResultCollection.ts` — aggregation result views
* `src/ipc/Store.ts`        — shared key-value store with expiry
* `src/ipc/EventBus.ts`     — pub/sub relay with ack counting
* `src/plugins/processGuard.ts` — shutdown cleanup sequencing
* `src/handlers/message.ts` — manager-side ClientReady processing

JavaScript `Map`s become association lists whose operations mirror `Map`
semantics (`set` replaces in place, `delete` removes, iteration order is
insertion order).  Timers are modelled as explicit timeout events; a timer
that the code `clearTimeout`s exactly when its map entry is removed is
modelled by a timeout step that is a no-op when the entry is absent.
Wall-clock time is an explicit `Nat` parameter.
-/

namespace DiscordCluster

/-- Serializable IPC payload values (primitives; `undef` is JS `undefined`). -/
inductive Val where
  | num (n : Int)
  | str (s : String)
  | boolean (b : Bool)
  | jsNull
  | undef
deriving DecidableEq, Repr

/-- A stored per-cluster result inside a pending broadcast: either plain data
or an `Error` instance created from a `HandlerError` reply
(`pending.results.set(src, new Error(errMsg))`). -/
inductive RVal where
  | ok (v : Val)
  | err (msg : String)
deriving DecidableEq, Repr

/-! ### Association lists mirroring JS `Map`
(string keys for nonce maps, `Int` keys for broadcast `results` maps —
cluster ids, with `-1` for the locally-seeded entry — `Nat` keys for the
manager's cluster registry). -/

/-- `Map.get`: first entry with the key. -/
def alookup {κ α : Type} [DecidableEq κ] : List (κ × α) → κ → Option α
  | [], _ => none
  | (k, v) :: t, n => if k = n then some v else alookup t n

/-- `Map.delete`: remove the entry with the key. -/
def aremove {κ α : Type} [DecidableEq κ] : List (κ × α) → κ → List (κ × α)
  | [], _ => []
  | (k, v) :: t, n => if k = n then t else (k, v) :: aremove t n

/-- `Map.set`: replace in place if present, append otherwise. -/
def aset {κ α : Type} [DecidableEq κ] : List (κ × α) → κ → α → List (κ × α)
  | [], n, v => [(n, v)]
  | (k, w) :: t, n, v => if k = n then (n, v) :: t else (k, w) :: aset t n v

/-- Number of entries carrying the key (0 or 1 for well-formed maps). -/
def countKey {κ α : Type} [DecidableEq κ] (l : List (κ × α)) (n : κ) : Nat :=
  l.countP (fun p => p.1 = n)

/-! ### ResultCollection (`src/utils/ResultCollection.ts`) -/

inductive Status where
  | ok
  | error
deriving DecidableEq, Repr

/-- `ClusterResult<T>`: `{ clusterId, status, data?, error? }`.  A missing
`data` property reads as `undefined`, i.e. `Val.undef`. -/
structure ClusterResult where
  clusterId : Int
  status : Status
  data : Val
  errMsg : Option String
deriving DecidableEq, Repr

structure ResultCollection where
  results : List ClusterResult
deriving DecidableEq, Repr

namespace ResultCollection

/-- `values()`: data of entries with `status === 'ok' && data !== undefined`. -/
def values (rc : ResultCollection) : List Val :=
  (rc.results.filter (fun r => r.status = .ok ∧ r.data ≠ .undef)).map (·.data)

/-- `errors()`: `{clusterId, error: r.error || 'Unknown error'}` for error
entries (`||` treats the empty string as absent). -/
def errorEntries (rc : ResultCollection) : List (Int × String) :=
  (rc.results.filter (fun r => r.status = .error)).map
    (fun r => (r.clusterId,
      match r.errMsg with
      | some e => if e = "" then "Unknown error" else e
      | none => "Unknown error"))

/-- `allOk()`. -/
def allOk (rc : ResultCollection) : Bool :=
  rc.results.all (fun r => r.status = .ok)

/-- `sum()`: add the numeric successful values, non-numbers contribute 0. -/
def sum (rc : ResultCollection) : Int :=
  rc.values.foldl (fun acc v => match v with | .num n => acc + n | _ => acc) 0

/-- `get(clusterId)`: first entry with that cluster id. -/
def get (rc : ResultCollection) (clusterId : Int) : Option ClusterResult :=
  rc.results.find? (fun r => r.clusterId = clusterId)

/-- `first()`. -/
def first (rc : ResultCollection) : Option Val :=
  rc.values.head?

/-- `find(predicate)`. -/
def findVal (rc : ResultCollection) (p : Val → Bool) : Option Val :=
  rc.values.find? p

/-- `size`. -/
def size (rc : ResultCollection) : Nat :=
  rc.results.length

/-- `successCount`. -/
def successCount (rc : ResultCollection) : Nat :=
  rc.results.countP (fun r => r.status = .ok)

/-- `errorCount`. -/
def errorCount (rc : ResultCollection) : Nat :=
  rc.results.countP (fun r => r.status = .error)

end ResultCollection

/-- The mapping applied when a pending broadcast resolves:
`results.entries().map(([clusterId, result]) => result instanceof Error ?
{clusterId, status:'error', error} : {clusterId, status:'ok', data})`. -/
def toClusterResult (p : Int × RVal) : ClusterResult :=
  match p.2 with
  | .ok v => ⟨p.1, .ok, v, none⟩
  | .err m => ⟨p.1, .error, .undef, some m⟩

def toCollection (l : List (Int × RVal)) : ResultCollection :=
  ⟨l.map toClusterResult⟩

/-! ### StoreManager (`src/ipc/Store.ts`) -/

/-- `StoreEntry { value, expiresAt? }`. -/
structure SEntry where
  value : Val
  expiresAt : Option Nat
deriving DecidableEq, Repr

/-- The manager-side store is a `Map<string, StoreEntry>`. -/
abbrev StoreMap := List (String × SEntry)

/-- `entry.expiresAt && now > entry.expiresAt` (0 is falsy in JS). -/
def entryExpired (e : SEntry) (now : Nat) : Bool :=
  match e.expiresAt with
  | some x => x ≠ 0 ∧ now > x
  | none => false

/-- `get(key)` at time `now`: returns the value and the possibly-updated map
(an expired entry is deleted on read). -/
def sget (m : StoreMap) (key : String) (now : Nat) : Option Val × StoreMap :=
  match alookup m key with
  | none => (none, m)
  | some e =>
    if entryExpired e now then (none, aremove m key)
    else (some e.value, m)

/-- `set(key, value, ttl?)` at time `now`: `expiresAt: ttl ? now + ttl :
undefined` (a `ttl` of 0 is falsy, hence no expiry). -/
def sset (m : StoreMap) (key : String) (value : Val) (ttl : Nat) (now : Nat) :
    StoreMap :=
  aset m key ⟨value, if ttl ≠ 0 then some (now + ttl) else none⟩

/-- `has(key)` at time `now`. -/
def shas (m : StoreMap) (key : String) (now : Nat) : Bool × StoreMap :=
  match alookup m key with
  | none => (false, m)
  | some e =>
    if entryExpired e now then (false, aremove m key)
    else (true, m)

/-- `delete(key)`. -/
def sdelete (m : StoreMap) (key : String) : StoreMap :=
  aremove m key

/-- The periodic `cleanup()` sweep at time `now`. -/
def scleanup (m : StoreMap) (now : Nat) : StoreMap :=
  m.filter (fun p => ¬ entryExpired p.2 now)

/-! ### IPC client state (`src/ipc/IPCHandler.ts`, `src/ipc/Store.ts`)

`IPCHandler` holds `promises : Map<nonce, StoredPromise>` (single
request/requestTo correlation) and `pendingAll : Map<nonce, {results,
expected, …}>` (requestAll correlation); `StoreClient` holds its own
`promises` map.  Resolving/rejecting a recorded promise is modelled as an
emitted `Delivery`. -/

/-- One `pendingAll` entry: `{ results : Map<number, unknown>, expected }`. -/
structure PendingAllEntry where
  results : List (Int × RVal)
  expected : Nat
deriving DecidableEq, Repr

/-- The combined client-side correlation state. -/
structure ClientState where
  promises : List String
  pendingAll : List (String × PendingAllEntry)
  storePromises : List String
deriving DecidableEq, Repr

/-- What a processing step hands to a suspended caller. -/
inductive Delivery where
  /-- `promise.resolve(responseData)` for a single request. -/
  | resolved (nonce : String) (v : Val)
  /-- `promise.reject(new Error(errMsg))` for a single request. -/
  | rejected (nonce : String) (msg : String)
  /-- single-request timeout: `reject(new Error('IPC request timed out'))`. -/
  | timedOut (nonce : String)
  /-- `pending.resolve(new ResultCollection(results))` for a requestAll. -/
  | resolvedAll (nonce : String) (results : List (Int × RVal))
  /-- `promise.resolve(message.data)` in `StoreClient.handleResponse`. -/
  | storeResolved (nonce : String) (v : Val)
  /-- store timeout: `reject(new Error('Store request timed out'))`. -/
  | storeTimedOut (nonce : String)
deriving DecidableEq, Repr

/-- Events the client reacts to: the three reply message kinds, and the three
timer firings.  A timer event only exists while its map entry does (the code
calls `clearTimeout` exactly when it deletes the entry), which the timeout
branches reflect by doing nothing on an absent entry. -/
inductive Event where
  | handlerResponse (nonce : String) (src : Option Int) (v : Val)
  | handlerError (nonce : String) (src : Option Int) (msg : String)
  | storeResponse (nonce : String) (v : Val)
  | requestTimeout (nonce : String)
  | allTimeout (nonce : String)
  | storeTimeout (nonce : String)
deriving DecidableEq, Repr

def Event.nonce : Event → String
  | .handlerResponse n _ _ => n
  | .handlerError n _ _ => n
  | .storeResponse n _ => n
  | .requestTimeout n => n
  | .allTimeout n => n
  | .storeTimeout n => n

def Delivery.nonce : Delivery → String
  | .resolved n _ => n
  | .rejected n _ => n
  | .timedOut n => n
  | .resolvedAll n _ => n
  | .storeResolved n _ => n
  | .storeTimedOut n => n

/-- `IPCHandler.handleIncoming`, `HandlerResponse` case.  When a `pendingAll`
entry exists and the message names a source cluster, the reply is recorded
(`results.set(src, data)`) and the broadcast resolves once `results.size >=
expected`; otherwise the single-request promise (if any) resolves. -/
def stepHandlerResponse (s : ClientState) (n : String) (src : Option Int)
    (v : Val) : ClientState × List Delivery :=
  match alookup s.pendingAll n, src with
  | some p, some c =>
    let results := aset p.results c (.ok v)
    if results.length ≥ p.expected then
      ({ s with pendingAll := aremove s.pendingAll n },
        [.resolvedAll n results])
    else
      ({ s with pendingAll := aset s.pendingAll n ⟨results, p.expected⟩ }, [])
  | _, _ =>
    if s.promises.contains n then
      ({ s with promises := s.promises.filter (· ≠ n) }, [.resolved n v])
    else (s, [])

/-- `IPCHandler.handleIncoming`, `HandlerError` case (records
`new Error(errMsg)` in a pending broadcast, rejects a single request). -/
def stepHandlerError (s : ClientState) (n : String) (src : Option Int)
    (msg : String) : ClientState × List Delivery :=
  match alookup s.pendingAll n, src with
  | some p, some c =>
    let results := aset p.results c (.err msg)
    if results.length ≥ p.expected then
      ({ s with pendingAll := aremove s.pendingAll n },
        [.resolvedAll n results])
    else
      ({ s with pendingAll := aset s.pendingAll n ⟨results, p.expected⟩ }, [])
  | _, _ =>
    if s.promises.contains n then
      ({ s with promises := s.promises.filter (· ≠ n) }, [.rejected n msg])
    else (s, [])

/-- One client step per event.  `storeResponse` is
`StoreClient.handleResponse`; the timeout events are the respective timer
callbacks (no-ops when the entry is already gone, since the entry's removal
always cleared the timer). -/
def step (s : ClientState) (e : Event) : ClientState × List Delivery :=
  match e with
  | .handlerResponse n src v => stepHandlerResponse s n src v
  | .handlerError n src msg => stepHandlerError s n src msg
  | .storeResponse n v =>
    if s.storePromises.contains n then
      ({ s with storePromises := s.storePromises.filter (· ≠ n) },
        [.storeResolved n v])
    else (s, [])
  | .requestTimeout n =>
    if s.promises.contains n then
      ({ s with promises := s.promises.filter (· ≠ n) }, [.timedOut n])
    else (s, [])
  | .allTimeout n =>
    match alookup s.pendingAll n with
    | some p =>
      ({ s with pendingAll := aremove s.pendingAll n },
        [.resolvedAll n p.results])
    | none => (s, [])
  | .storeTimeout n =>
    if s.storePromises.contains n then
      ({ s with storePromises := s.storePromises.filter (· ≠ n) },
        [.storeTimedOut n])
    else (s, [])

/-- Process a sequence of events, accumulating deliveries in order. -/
def run (s : ClientState) : List Event → ClientState × List Delivery
  | [] => (s, [])
  | e :: evs =>
    let (s1, ds) := step s e
    let (s2, ds') := run s1 evs
    (s2, ds ++ ds')

/-- How many correlation entries the state holds for a nonce, across all
three maps (at most one in any state the code can construct). -/
def pendingCount (s : ClientState) (n : String) : Nat :=
  s.promises.count n + countKey s.pendingAll n + s.storePromises.count n

/-! ### `IPCHandler.requestAll` initialisation -/

/-- Behaviour of the caller's own handler during `requestAll`: absent from
the `handlers` map, or invoked in-process with its outcome. -/
inductive LocalOutcome where
  | noHandler
  | ok (v : Val)
  | threw (msg : String)
deriving DecidableEq, Repr

/-- `initialResults` after the in-process local invocation:
`initialResults.set(-1, localResult)` on success,
`initialResults.set(-1, new Error(msg))` on a throw. -/
def localSeed : LocalOutcome → List (Int × RVal)
  | .noHandler => []
  | .ok v => [(-1, .ok v)]
  | .threw m => [(-1, .err m)]

/-- What `requestAll` does before any reply can be processed: resolve
immediately, or register a `pendingAll` entry. -/
inductive RAInit where
  | immediate (rc : ResultCollection)
  | pending (entry : PendingAllEntry)
deriving DecidableEq, Repr

/-- `requestAll` up to the point where it either returns without messaging
(`total === 0`, or `remoteExpected <= 0`) or records the `pendingAll`
entry `{results: initialResults, expected: remoteExpected +
initialResults.size}`. -/
def requestAllInit (total : Nat) (lo : LocalOutcome) : RAInit :=
  if total = 0 then .immediate ⟨[]⟩
  else
    let initialResults := localSeed lo
    if total - 1 = 0 then .immediate (toCollection initialResults)
    else .pending ⟨initialResults, (total - 1) + initialResults.length⟩

/-- The state right after `requestAll` registered its broadcast entry under
the fresh nonce (fresh nonces: nothing else pending for it). -/
def raState (n : String) (e : PendingAllEntry) : ClientState :=
  ⟨[], [(n, e)], []⟩

/-! ### Responding side of `handleIncoming`
(`HandlerRequest` / `HandlerRequestAll` cases) -/

/-- A registered handler's behaviour on the request's data. -/
inductive HandlerBehavior where
  | returns (v : Val)
  | throws (msg : String)
deriving DecidableEq, Repr

/-- Messages the responding side sends back. -/
inductive OutMsg where
  | response (nonce : String) (v : Val)
  | error (nonce : String) (msg : String)
deriving DecidableEq, Repr

/-- A single-quote character, written via its code point. -/
def squote : String := String.singleton (Char.ofNat 39)

/-- The reply text for an unregistered handler name. -/
def noHandlerMsg (name : String) : String :=
  "No handler registered for " ++ squote ++ name ++ squote

/-- `handleIncoming`, `HandlerRequest`/`HandlerRequestAll` case: look the
handler up, reply `HandlerError` when absent, else invoke it and reply
`HandlerResponse` with the result or `HandlerError` with the thrown
message — always exactly one reply, reusing the request's nonce. -/
def handleRequest (handlers : List (String × HandlerBehavior))
    (nonce name : String) : List OutMsg :=
  match alookup handlers name with
  | none => [.error nonce (noHandlerMsg name)]
  | some (.returns v) => [.response nonce v]
  | some (.throws m) => [.error nonce m]

/-! ### EventBusClient (`src/ipc/EventBus.ts`) -/

/-- One `ackPromises` entry: `{ expected, received }`. -/
structure AckEntry where
  expected : Nat
  received : Nat
deriving DecidableEq, Repr

abbrev AckMap := List (String × AckEntry)

/-- What `broadcastAndWait` does after sending `EventEmitAndWait`: resolve
immediately with 0 (`expected <= 0`), or register `{expected, received: 0}`
with a timeout timer. -/
inductive BWInit where
  | immediate0
  | pending (entry : AckEntry)
deriving DecidableEq, Repr

def broadcastAndWaitInit (expectedClusters : Option Nat) : BWInit :=
  let expected := expectedClusters.getD 0
  if expected = 0 then .immediate0 else .pending ⟨expected, 0⟩

inductive AckEvent where
  /-- an `EventAck` message for the nonce arrives. -/
  | ack (nonce : String)
  /-- the `broadcastAndWait` timer for the nonce fires. -/
  | timerFired (nonce : String)
deriving DecidableEq, Repr

/-- `resolve(count)` handed to the suspended `broadcastAndWait` caller. -/
inductive AckDelivery where
  | resolvedAcks (nonce : String) (count : Nat)
deriving DecidableEq, Repr

/-- `EventBusClient.handleIncoming`, `EventAck` case, plus the timeout
callback.  An ack for an unknown nonce returns at once; the timer resolves
with the count received so far (a timer firing with no entry would call an
already-used `resolve`, a no-op for a settled promise). -/
def ackStep (m : AckMap) (e : AckEvent) : AckMap × List AckDelivery :=
  match e with
  | .ack n =>
    match alookup m n with
    | none => (m, [])
    | some p =>
      let received := p.received + 1
      if received ≥ p.expected then
        (aremove m n, [.resolvedAcks n received])
      else (aset m n ⟨p.expected, received⟩, [])
  | .timerFired n =>
    match alookup m n with
    | some p => (aremove m n, [.resolvedAcks n p.received])
    | none => (aremove m n, [])

def ackRun (m : AckMap) : List AckEvent → AckMap × List AckDelivery
  | [] => (m, [])
  | e :: evs =>
    let (m1, ds) := ackStep m e
    let (m2, ds') := ackRun m1 evs
    (m2, ds ++ ds')

/-! ### Manager-side `ClientReady` processing
(`src/handlers/message.ts`, `ClusterHandler.handleMessage`) -/

/-- The manager state the `ClientReady` branch touches: the cluster
registry (insertion-ordered, id → `ready` flag), the manager's own `ready`
flag, and `options.totalClusters`. -/
structure MgrState where
  clusters : List (Nat × Bool)
  mgrReady : Bool
  totalClusters : Nat
deriving DecidableEq, Repr

/-- Observable manager outputs of the `ClientReady` branch. -/
inductive MgrOut where
  /-- `manager.emit('ready', manager)` — the fleet-ready notification. -/
  | fleetReady
  /-- `cluster._sendInstance({_type: ManagerReady})` to one cluster. -/
  | managerReadySent (id : Nat)
deriving DecidableEq, Repr

/-- The `ClientReady` case: a duplicate ready signal is ignored; otherwise
the cluster is marked ready and, if the manager was not yet ready, every
cluster is ready and the registry size equals `totalClusters`, the manager
becomes ready and fans `ManagerReady` out to every cluster.  (`none` is
unreachable: the handler runs on a registered cluster object.) -/
def handleClientReady (s : MgrState) (id : Nat) : MgrState × List MgrOut :=
  match alookup s.clusters id with
  | none => (s, [])
  | some true => (s, [])
  | some false =>
    let clusters := aset s.clusters id true
    let allReady := clusters.all (fun p => p.2)
    if ¬ s.mgrReady ∧ allReady ∧ clusters.length = s.totalClusters then
      (⟨clusters, true, s.totalClusters⟩,
        .fleetReady :: clusters.map (fun p => .managerReadySent p.1))
    else (⟨clusters, s.mgrReady, s.totalClusters⟩, [])

def mgrRun (s : MgrState) : List Nat → MgrState × List MgrOut
  | [] => (s, [])
  | id :: ids =>
    let (s1, ds) := handleClientReady s id
    let (s2, ds') := mgrRun s1 ids
    (s2, ds ++ ds')

/-! ### ProcessGuard shutdown (`src/plugins/processGuard.ts`) -/

/-- How one cleanup task behaves when raced against its timeout. -/
inductive TaskOutcome where
  | completes
  | throws (msg : String)
  | timesOut
deriving DecidableEq, Repr

/-- Observable events of `executeShutdown`, in order. -/
inductive GuardEvent where
  | stepStarted (name : String)
  | taskCompleted (name : String)
  | taskFailed (name : String) (msg : String)
  | childrenKilled
  | shutdownComplete
  | exited (code : Nat)
deriving DecidableEq, Repr

/-- One loop iteration: `Promise.race([task(), timeoutRejection])` inside a
`try`/`catch` whose `catch` only logs, so a throw or timeout never escapes
the iteration. -/
def taskEvents (p : String × TaskOutcome) : List GuardEvent :=
  match p with
  | (n, .completes) => [.stepStarted n, .taskCompleted n]
  | (n, .throws m) => [.stepStarted n, .taskFailed n m]
  | (n, .timesOut) => [.stepStarted n, .taskFailed n (n ++ " timeout")]

/-- `executeShutdown`: iterate the registered cleanup tasks in insertion
order, then `killAllChildren()`, then `emit('shutdown:complete')`, then
`process.exit(0)` (the outer `catch`/`exit(1)` path is unreachable from
task failures, which the per-task `catch` already swallowed). -/
def executeShutdown (tasks : List (String × TaskOutcome)) : List GuardEvent :=
  tasks.flatMap taskEvents ++ [.childrenKilled, .shutdownComplete, .exited 0]

/-- The names started during the task phase, in order. -/
def startedNames (evs : List GuardEvent) : List String :=
  evs.filterMap (fun e => match e with
    | .stepStarted n => some n
    | _ => none)

/-- Deliveries carrying a given nonce. -/
def deliveriesFor (n : String) (ds : List Delivery) : Nat :=
  ds.countP (fun d => d.nonce = n)

end DiscordCluster

namespace DiscordCluster

/-! ### Lemmas about the map operations -/

theorem countKey_nil {κ α : Type} [DecidableEq κ] (k : κ) :
    countKey ([] : List (κ × α)) k = 0 := rfl

theorem countKey_cons {κ α : Type} [DecidableEq κ] (k' : κ) (v' : α)
    (t : List (κ × α)) (k : κ) :
    countKey ((k', v') :: t) k = countKey t k + (if k' = k then 1 else 0) := by
  simp [countKey, List.countP_cons]

theorem alookup_eq_none_iff {κ α : Type} [DecidableEq κ]
    (l : List (κ × α)) (k : κ) : alookup l k = none ↔ countKey l k = 0 := by
  induction l with
  | nil => simp [alookup, countKey]
  | cons hd t ih =>
    obtain ⟨k', v'⟩ := hd
    by_cases hk : k' = k
    · simp [alookup, hk, countKey_cons]
    · simp [alookup, hk, countKey_cons, ih]

theorem countKey_aremove_self {κ α : Type} [DecidableEq κ]
    (l : List (κ × α)) (k : κ) (e : α) (h : alookup l k = some e) :
    countKey l k = countKey (aremove l k) k + 1 := by
  induction l with
  | nil => simp [alookup] at h
  | cons hd t ih =>
    obtain ⟨k', v'⟩ := hd
    by_cases hk : k' = k
    · simp [aremove, hk, countKey_cons]
    · have h' : alookup t k = some e := by simpa [alookup, hk] using h
      simp [aremove, hk, countKey_cons, ih h']

theorem countKey_aset_of_mem {κ α : Type} [DecidableEq κ]
    (l : List (κ × α)) (k : κ) (v e : α) (h : alookup l k = some e) :
    countKey (aset l k v) k = countKey l k := by
  induction l with
  | nil => simp [alookup] at h
  | cons hd t ih =>
    obtain ⟨k', v'⟩ := hd
    by_cases hk : k' = k
    · simp [aset, hk, countKey_cons]
    · have h' : alookup t k = some e := by simpa [alookup, hk] using h
      simp [aset, hk, countKey_cons, ih h']

theorem alookup_aset {κ α : Type} [DecidableEq κ]
    (l : List (κ × α)) (k k' : κ) (v : α) :
    alookup (aset l k v) k' = if k' = k then some v else alookup l k' := by
  induction l with
  | nil =>
    by_cases hk : k' = k
    · subst hk; simp [aset, alookup]
    · have hne : ¬ k = k' := fun h => hk h.symm
      simp [aset, alookup, hk, hne]
  | cons hd t ih =>
    obtain ⟨a, w⟩ := hd
    by_cases ha : a = k
    · subst ha
      by_cases hk' : k' = a
      · subst hk'; simp [aset, alookup]
      · have hne : ¬ a = k' := fun h => hk' h.symm
        simp [aset, alookup, hk', hne]
    · by_cases ha' : a = k'
      · subst ha'
        have hne : ¬ a = k := ha
        simp [aset, alookup, hne]
      · simp [aset, alookup, ha, ha', ih]

theorem length_aset_of_absent {κ α : Type} [DecidableEq κ]
    (l : List (κ × α)) (k : κ) (v : α) (h : alookup l k = none) :
    (aset l k v).length = l.length + 1 := by
  induction l with
  | nil => simp [aset]
  | cons hd t ih =>
    obtain ⟨a, w⟩ := hd
    by_cases ha : a = k
    · simp [alookup, ha] at h
    · have h' : alookup t k = none := by simpa [alookup, ha] using h
      simp [aset, ha, ih h']

theorem keys_aset_of_absent {κ α : Type} [DecidableEq κ]
    (l : List (κ × α)) (k : κ) (v : α) (h : alookup l k = none) :
    (aset l k v).map Prod.fst = l.map Prod.fst ++ [k] := by
  induction l with
  | nil => simp [aset]
  | cons hd t ih =>
    obtain ⟨a, w⟩ := hd
    by_cases ha : a = k
    · simp [alookup, ha] at h
    · have h' : alookup t k = none := by simpa [alookup, ha] using h
      simp [aset, ha, ih h']

theorem alookup_eq_none_iff_not_mem_keys {κ α : Type} [DecidableEq κ]
    (l : List (κ × α)) (k : κ) :
    alookup l k = none ↔ k ∉ l.map Prod.fst := by
  induction l with
  | nil => simp [alookup]
  | cons hd t ih =>
    obtain ⟨a, w⟩ := hd
    by_cases ha : a = k
    · simp [alookup, ha]
    · rw [show alookup ((a, w) :: t) k = alookup t k by simp [alookup, ha]]
      rw [ih]
      simp only [List.map_cons, List.mem_cons, not_or]
      constructor
      · intro h
        exact ⟨fun hk => ha hk.symm, h⟩
      · intro h
        exact h.2

theorem keys_aset_eq_of_mem {κ α : Type} [DecidableEq κ]
    (l : List (κ × α)) (k : κ) (v e : α) (h : alookup l k = some e) :
    (aset l k v).map Prod.fst = l.map Prod.fst := by
  induction l with
  | nil => simp [alookup] at h
  | cons hd t ih =>
    obtain ⟨a, w⟩ := hd
    by_cases ha : a = k
    · simp [aset, ha]
    · have h' : alookup t k = some e := by simpa [alookup, ha] using h
      simp [aset, ha, ih h']

theorem keys_nodup_aset {κ α : Type} [DecidableEq κ]
    (l : List (κ × α)) (k : κ) (v : α)
    (h : (l.map Prod.fst).Nodup) :
    ((aset l k v).map Prod.fst).Nodup := by
  by_cases hmem : alookup l k = none
  · rw [keys_aset_of_absent l k v hmem]
    have hk : k ∉ l.map Prod.fst :=
      (alookup_eq_none_iff_not_mem_keys l k).1 hmem
    rw [List.nodup_append]
    refine ⟨h, List.nodup_singleton k, ?_⟩
    intro a ha hb
    rw [List.mem_singleton] at hb
    exact hk (hb ▸ ha)
  · obtain ⟨e, he⟩ := Option.ne_none_iff_exists'.1 hmem
    rw [keys_aset_eq_of_mem l k v e he]
    exact h

theorem alookup_aremove_self {κ α : Type} [DecidableEq κ]
    (l : List (κ × α)) (k : κ) (h : (l.map Prod.fst).Nodup) :
    alookup (aremove l k) k = none := by
  induction l with
  | nil => simp [aremove, alookup]
  | cons hd t ih =>
    obtain ⟨a, w⟩ := hd
    simp only [List.map_cons, List.nodup_cons] at h
    obtain ⟨h1, h2⟩ := h
    by_cases ha : a = k
    · simp only [aremove, if_pos ha]
      rw [alookup_eq_none_iff_not_mem_keys]
      exact ha ▸ h1
    · simp [aremove, ha, alookup, ih h2]

theorem alookup_filter {κ α : Type} [DecidableEq κ]
    (l : List (κ × α)) (k : κ) (e : α) (p : κ × α → Bool)
    (h : alookup l k = some e) (hp : p (k, e) = true) :
    alookup (l.filter p) k = some e := by
  induction l with
  | nil => simp [alookup] at h
  | cons hd t ih =>
    obtain ⟨a, w⟩ := hd
    by_cases ha : a = k
    · subst ha
      have hw : w = e := by simpa [alookup] using h
      subst hw
      simp [List.filter_cons, hp, alookup]
    · have h' : alookup t k = some e := by simpa [alookup, ha] using h
      by_cases hph : p (a, w) = true
      · simp [List.filter_cons, hph, alookup, ha, ih h']
      · simp only [List.filter_cons, if_neg hph]
        exact ih h'

theorem alookup_filter_none {κ α : Type} [DecidableEq κ]
    (l : List (κ × α)) (k : κ) (e : α) (p : κ × α → Bool)
    (hnd : (l.map Prod.fst).Nodup)
    (h : alookup l k = some e) (hp : p (k, e) = false) :
    alookup (l.filter p) k = none := by
  induction l with
  | nil => simp [alookup] at h
  | cons hd t ih =>
    obtain ⟨a, w⟩ := hd
    simp only [List.map_cons, List.nodup_cons] at hnd
    obtain ⟨h1, h2⟩ := hnd
    by_cases ha : a = k
    · subst ha
      have hw : w = e := by simpa [alookup] using h
      subst hw
      simp only [List.filter_cons, hp, Bool.false_eq_true, if_false]
      rw [alookup_eq_none_iff_not_mem_keys]
      intro hmem
      obtain ⟨q, hq, hq2⟩ := List.mem_map.1 hmem
      exact h1 (List.mem_map.2 ⟨q, (List.mem_filter.1 hq).1, hq2⟩)
    · have h' : alookup t k = some e := by simpa [alookup, ha] using h
      by_cases hph : p (a, w) = true
      · simp [List.filter_cons, hph, alookup, ha, ih h2 h']
      · simp only [List.filter_cons, if_neg hph]
        exact ih h2 h'

end DiscordCluster

namespace DiscordCluster

/-! ### Claim C9 — ok-entries with undefined data in ResultCollection -/

/-- A collection holding a single ok entry whose data is `undefined`. -/
def rcOkUndef : ResultCollection := ⟨[⟨0, .ok, .undef, none⟩]⟩

theorem values_length_le_successCount (rc : ResultCollection) :
    rc.values.length ≤ rc.successCount := by
  unfold ResultCollection.values ResultCollection.successCount
  rw [List.length_map, ← List.countP_eq_length_filter]
  apply List.countP_mono_left
  intro r _ hr
  simp only [decide_eq_true_eq] at *
  exact hr.1

/-- C9: an ok entry with undefined data is excluded from `values()`, hence
from `first()`, `find()` and `sum()`, yet still counts toward
`successCount` and `allOk()`; so `successCount` can exceed
`values().length` and `first()` can be `undefined` while `successCount`
is positive. -/
theorem c9_ok_undefined_data_excluded_from_values :
    (∀ rc : ResultCollection, rc.values.length ≤ rc.successCount) ∧
    rcOkUndef.values = [] ∧
    rcOkUndef.first = none ∧
    (∀ p : Val → Bool, rcOkUndef.findVal p = none) ∧
    rcOkUndef.sum = 0 ∧
    rcOkUndef.successCount = 1 ∧
    rcOkUndef.allOk = true ∧
    rcOkUndef.values.length < rcOkUndef.successCount := by
  have hv : rcOkUndef.values = [] := by decide
  refine ⟨values_length_le_successCount, hv, ?_, ?_, ?_, by decide, by decide,
    by decide⟩
  · rw [ResultCollection.first, hv]
    rfl
  · intro p
    rw [ResultCollection.findVal, hv]
    rfl
  · rw [ResultCollection.sum, hv]
    rfl

/-! ### Claim C10 — a ttl of 0 means "never expires" -/

/-- C10: `set(k, v, 0)` stores an entry without `expiresAt`; every later
`get`/`has` finds it at any time, the sweep never removes it, and only an
explicit `delete` does. -/
theorem c10_ttl_zero_never_expires (m : StoreMap) (k : String) (v : Val)
    (t tr td : Nat) (hnd : (m.map Prod.fst).Nodup) :
    sget (sset m k v 0 t) k tr = (some v, sset m k v 0 t) ∧
    shas (sset m k v 0 t) k tr = (true, sset m k v 0 t) ∧
    alookup (scleanup (sset m k v 0 t) td) k = some ⟨v, none⟩ ∧
    alookup (sdelete (sset m k v 0 t) k) k = none := by
  have hset : sset m k v 0 t = aset m k ⟨v, none⟩ := by
    simp [sset]
  have hlook : alookup (sset m k v 0 t) k = some ⟨v, none⟩ := by
    rw [hset, alookup_aset]
    simp
  refine ⟨?_, ?_, ?_, ?_⟩
  · rw [sget, hlook]
    simp [entryExpired]
  · rw [shas, hlook]
    simp [entryExpired]
  · apply alookup_filter _ _ _ _ hlook
    simp [entryExpired]
  · rw [sdelete, hset]
    exact alookup_aremove_self _ _ (keys_nodup_aset m k _ hnd)

theorem c10_witness :
    (([] : StoreMap).map Prod.fst).Nodup ∧
    (sget (sset [] "k" (.num 7) 0 5) "k" 900 =
        (some (.num 7), sset [] "k" (.num 7) 0 5) ∧
      shas (sset [] "k" (.num 7) 0 5) "k" 900 =
        (true, sset [] "k" (.num 7) 0 5) ∧
      alookup (scleanup (sset [] "k" (.num 7) 0 5) 900) "k" =
        some ⟨.num 7, none⟩ ∧
      alookup (sdelete (sset [] "k" (.num 7) 0 5) "k") "k" = none) :=
  ⟨by decide, c10_ttl_zero_never_expires [] "k" (.num 7) 5 900 900 (by decide)⟩

/-! ### Claim C6 — positive ttl: lazy eviction on read plus periodic sweep -/

/-- C6: with `0 < ttl`, a read at or before `t + ttl` still returns the
value; a read strictly after `t + ttl` returns absent, reports `has =
false`, and itself deletes the entry; the periodic sweep removes the
expired entry as well. -/
theorem c6_ttl_expiry_lazy_and_sweep (m : StoreMap) (k : String) (v : Val)
    (ttl t tr : Nat) (hnd : (m.map Prod.fst).Nodup) (httl : 0 < ttl) :
    (tr ≤ t + ttl →
      sget (sset m k v ttl t) k tr = (some v, sset m k v ttl t) ∧
      shas (sset m k v ttl t) k tr = (true, sset m k v ttl t)) ∧
    (t + ttl < tr →
      sget (sset m k v ttl t) k tr =
        (none, aremove (sset m k v ttl t) k) ∧
      shas (sset m k v ttl t) k tr =
        (false, aremove (sset m k v ttl t) k) ∧
      alookup (sget (sset m k v ttl t) k tr).2 k = none) ∧
    (t + ttl < tr → alookup (scleanup (sset m k v ttl t) tr) k = none) := by
  have httl' : ttl ≠ 0 := Nat.pos_iff_ne_zero.1 httl
  have hset : sset m k v ttl t = aset m k ⟨v, some (t + ttl)⟩ := by
    simp [sset, httl']
  have hlook : alookup (sset m k v ttl t) k = some ⟨v, some (t + ttl)⟩ := by
    rw [hset, alookup_aset]
    simp
  have hnd' : ((sset m k v ttl t).map Prod.fst).Nodup := by
    rw [hset]
    exact keys_nodup_aset m k _ hnd
  refine ⟨?_, ?_, ?_⟩
  · intro hle
    have hexp : entryExpired ⟨v, some (t + ttl)⟩ tr = false := by
      simp [entryExpired]
      omega
    constructor
    · rw [sget, hlook]
      simp [hexp]
    · rw [shas, hlook]
      simp [hexp]
  · intro hgt
    have hexp : entryExpired ⟨v, some (t + ttl)⟩ tr = true := by
      simp [entryExpired]
      omega
    have hg : sget (sset m k v ttl t) k tr =
        (none, aremove (sset m k v ttl t) k) := by
      rw [sget, hlook]
      simp [hexp]
    refine ⟨hg, ?_, ?_⟩
    · rw [shas, hlook]
      simp [hexp]
    · rw [hg]
      exact alookup_aremove_self _ _ hnd'
  · intro hgt
    have hexp : entryExpired ⟨v, some (t + ttl)⟩ tr = true := by
      simp [entryExpired]
      omega
    apply alookup_filter_none _ _ _ _ hnd' hlook
    simp [hexp]

theorem c6_witness :
    ((([] : StoreMap).map Prod.fst).Nodup ∧ 0 < 50) ∧
    sget (sset [] "k" (.num 3) 50 0) "k" 0 =
      (some (.num 3), sset [] "k" (.num 3) 50 0) ∧
    sget (sset [] "k" (.num 3) 50 0) "k" 60 =
      (none, aremove (sset [] "k" (.num 3) 50 0) "k") ∧
    shas (sset [] "k" (.num 3) 50 0) "k" 60 =
      (false, aremove (sset [] "k" (.num 3) 50 0) "k") ∧
    alookup (scleanup (sset [] "k" (.num 3) 50 0) 60) "k" = none := by
  refine ⟨⟨by decide, by decide⟩, ?_, ?_, ?_, ?_⟩
  · exact ((c6_ttl_expiry_lazy_and_sweep [] "k" (.num 3) 50 0 0
      (by decide) (by decide)).1 (by decide)).1
  · exact ((c6_ttl_expiry_lazy_and_sweep [] "k" (.num 3) 50 0 60
      (by decide) (by decide)).2.1 (by decide)).1
  · exact ((c6_ttl_expiry_lazy_and_sweep [] "k" (.num 3) 50 0 60
      (by decide) (by decide)).2.1 (by decide)).2.1
  · exact (c6_ttl_expiry_lazy_and_sweep [] "k" (.num 3) 50 0 60
      (by decide) (by decide)).2.2 (by decide)

end DiscordCluster

namespace DiscordCluster

/-! ### Claim C4 — exactly one reply per incoming request -/

def OutMsg.msgNonce : OutMsg → String
  | .response n _ => n
  | .error n _ => n

/-- C4: for an incoming `HandlerRequest`/`HandlerRequestAll`, an absent
handler yields exactly one `HandlerError` with the no-handler text and no
`HandlerResponse`; a returning handler yields exactly one
`HandlerResponse` with its value; a throwing handler yields exactly one
`HandlerError` with the thrown message — all under the request's nonce. -/
theorem c4_one_reply_per_request (handlers : List (String × HandlerBehavior))
    (nonce name : String) :
    (alookup handlers name = none →
      handleRequest handlers nonce name = [.error nonce (noHandlerMsg name)]) ∧
    (∀ v, alookup handlers name = some (.returns v) →
      handleRequest handlers nonce name = [.response nonce v]) ∧
    (∀ m, alookup handlers name = some (.throws m) →
      handleRequest handlers nonce name = [.error nonce m]) ∧
    (handleRequest handlers nonce name).length = 1 ∧
    (∀ msg ∈ handleRequest handlers nonce name, msg.msgNonce = nonce) := by
  refine ⟨?_, ?_, ?_, ?_, ?_⟩
  · intro h
    simp [handleRequest, h]
  · intro v h
    simp [handleRequest, h]
  · intro m h
    simp [handleRequest, h]
  · rw [handleRequest]
    rcases halook : alookup handlers name with _ | b
    · rfl
    · cases b <;> rfl
  · intro msg hmsg
    rw [handleRequest] at hmsg
    rcases halook : alookup handlers name with _ | b
    · rw [halook] at hmsg
      simp at hmsg
      rw [hmsg]
      rfl
    · rw [halook] at hmsg
      cases b <;> simp at hmsg <;> rw [hmsg] <;> rfl

theorem c4_witness :
    (alookup ([("f", HandlerBehavior.returns (.num 4))]) "g" = none ∧
      handleRequest [("f", HandlerBehavior.returns (.num 4))] "n1" "g" =
        [.error "n1" (noHandlerMsg "g")]) ∧
    handleRequest [("f", HandlerBehavior.returns (.num 4))] "n1" "f" =
      [.response "n1" (.num 4)] := by
  have h := c4_one_reply_per_request
    [("f", HandlerBehavior.returns (.num 4))] "n1" "g"
  have h2 := c4_one_reply_per_request
    [("f", HandlerBehavior.returns (.num 4))] "n1" "f"
  exact ⟨⟨by decide, h.1 (by decide)⟩, h2.2.1 (.num 4) (by decide)⟩

/-! ### Claim C8 — shutdown runs every cleanup task once, in order -/

theorem startedNames_flatMap (tasks : List (String × TaskOutcome)) :
    startedNames (tasks.flatMap taskEvents) = tasks.map Prod.fst := by
  induction tasks with
  | nil => rfl
  | cons hd t ih =>
    obtain ⟨nm, o⟩ := hd
    cases o <;>
      simp only [List.flatMap_cons, taskEvents, startedNames,
        List.filterMap_append, List.map_cons] at * <;>
      rw [ih] <;> rfl

/-- C8: `executeShutdown` attempts every registered task exactly once in
registration order (a throw or timeout is recorded and does not stop later
tasks), `shutdown:complete` fires only after all attempts — children are
terminated right before it — and the normal path exits with code 0. -/
theorem c8_shutdown_attempts_all_tasks_in_order
    (tasks : List (String × TaskOutcome)) :
    startedNames (executeShutdown tasks) = tasks.map Prod.fst ∧
    executeShutdown tasks = tasks.flatMap taskEvents ++
      [.childrenKilled, .shutdownComplete, .exited 0] ∧
    GuardEvent.shutdownComplete ∉ tasks.flatMap taskEvents ∧
    (executeShutdown tasks).count GuardEvent.shutdownComplete = 1 ∧
    (executeShutdown tasks).getLast? = some (.exited 0) ∧
    (∀ nm m, (nm, TaskOutcome.throws m) ∈ tasks →
      GuardEvent.taskFailed nm m ∈ executeShutdown tasks) ∧
    (∀ nm, (nm, TaskOutcome.timesOut) ∈ tasks →
      GuardEvent.taskFailed nm (nm ++ " timeout") ∈ executeShutdown tasks) := by
  have hnotin : GuardEvent.shutdownComplete ∉ tasks.flatMap taskEvents := by
    intro hmem
    rw [List.mem_flatMap] at hmem
    obtain ⟨p, _, hp⟩ := hmem
    obtain ⟨nm, o⟩ := p
    cases o <;> simp [taskEvents] at hp
  refine ⟨?_, rfl, hnotin, ?_, ?_, ?_, ?_⟩
  · rw [executeShutdown, startedNames, List.filterMap_append]
    have h2 : (List.filterMap (fun e => match e with
        | GuardEvent.stepStarted n => some n
        | _ => none)
        [GuardEvent.childrenKilled, .shutdownComplete, .exited 0]) = [] := rfl
    rw [h2, List.append_nil]
    exact startedNames_flatMap tasks
  · rw [executeShutdown, List.count_append]
    rw [List.count_eq_zero.2 hnotin]
    rfl
  · rw [executeShutdown]
    rw [List.getLast?_append]
    rfl
  · intro nm m hmem
    rw [executeShutdown, List.mem_append, List.mem_flatMap]
    exact Or.inl ⟨(nm, .throws m), hmem, by simp [taskEvents]⟩
  · intro nm hmem
    rw [executeShutdown, List.mem_append, List.mem_flatMap]
    exact Or.inl ⟨(nm, .timesOut), hmem, by simp [taskEvents]⟩

theorem c8_witness :
    (("A", TaskOutcome.timesOut) ∈
        [("A", TaskOutcome.timesOut), ("B", TaskOutcome.completes)] ∧
      startedNames (executeShutdown
        [("A", TaskOutcome.timesOut), ("B", TaskOutcome.completes)]) =
        ["A", "B"]) ∧
    GuardEvent.taskFailed "A" ("A" ++ " timeout") ∈ executeShutdown
      [("A", TaskOutcome.timesOut), ("B", TaskOutcome.completes)] := by
  have h := c8_shutdown_attempts_all_tasks_in_order
    [("A", TaskOutcome.timesOut), ("B", TaskOutcome.completes)]
  exact ⟨⟨by decide, h.1⟩, h.2.2.2.2.2.2 "A" (by decide)⟩

end DiscordCluster

namespace DiscordCluster

/-! ### Claim C7 — broadcastAndWait ack counting -/

theorem ackRun_append (m : AckMap) (evs1 evs2 : List AckEvent) :
    ackRun m (evs1 ++ evs2) =
      ((ackRun (ackRun m evs1).1 evs2).1,
        (ackRun m evs1).2 ++ (ackRun (ackRun m evs1).1 evs2).2) := by
  induction evs1 generalizing m with
  | nil => simp [ackRun]
  | cons e t ih =>
    simp only [List.cons_append, ackRun]
    simp [ih, List.append_assoc]

theorem ackRun_nil_map (evs : List AckEvent) :
    ackRun [] evs = ([], []) := by
  induction evs with
  | nil => rfl
  | cons e t ih =>
    cases e <;> simp [ackRun, ackStep, alookup, aremove, ih]

theorem ackStep_ack_singleton (n : String) (e r : Nat) :
    ackStep [(n, ⟨e, r⟩)] (.ack n) =
      if r + 1 ≥ e then ([], [.resolvedAcks n (r + 1)])
      else ([(n, ⟨e, r + 1⟩)], []) := by
  simp [ackStep, alookup, aremove, aset]

theorem ackRun_acks_below (n : String) (e : Nat) :
    ∀ k r, r + k < e →
      ackRun [(n, ⟨e, r⟩)] (List.replicate k (.ack n)) =
        ([(n, ⟨e, r + k⟩)], []) := by
  intro k
  induction k with
  | zero => intro r h; simp [ackRun]
  | succ k ih =>
    intro r h
    rw [List.replicate_succ, ackRun, ackStep_ack_singleton]
    have hlt : ¬ r + 1 ≥ e := by omega
    rw [if_neg hlt]
    have := ih (r + 1) (by omega)
    simp only [this]
    have harith : r + 1 + k = r + (k + 1) := by omega
    rw [harith]
    simp

theorem ackRun_acks_reach (n : String) (e : Nat) :
    ∀ k r, r + k = e → 1 ≤ k →
      ackRun [(n, ⟨e, r⟩)] (List.replicate k (.ack n)) =
        ([], [.resolvedAcks n e]) := by
  intro k
  induction k with
  | zero => intro r h h1; omega
  | succ k ih =>
    intro r hre _
    rw [List.replicate_succ, ackRun, ackStep_ack_singleton]
    by_cases hk : k = 0
    · subst hk
      have hr : r + 1 = e := by omega
      rw [if_pos (by omega)]
      simp [ackRun, hr]
    · have hlt : ¬ r + 1 ≥ e := by omega
      rw [if_neg hlt]
      have := ih (r + 1) (by omega) (by omega)
      simp only [this]
      rfl

/-- C7: `broadcastAndWait` with no/zero `expectedAcks` resolves immediately
with 0 and registers nothing; with a positive count it registers
`{expected, received: 0}` and then resolves with `expected` at the
`expected`-th `EventAck` (later acks are no-ops), or with the number of
acks received so far when the timer fires first; it never rejects (the
model's only delivery is `resolvedAcks`). -/
theorem c7_broadcastAndWait_resolution (n : String) (e k : Nat)
    (he : 1 ≤ e) :
    broadcastAndWaitInit none = .immediate0 ∧
    broadcastAndWaitInit (some 0) = .immediate0 ∧
    broadcastAndWaitInit (some e) = .pending ⟨e, 0⟩ ∧
    (e ≤ k → ackRun [(n, ⟨e, 0⟩)] (List.replicate k (.ack n)) =
      ([], [.resolvedAcks n e])) ∧
    (k < e →
      ackRun [(n, ⟨e, 0⟩)] (List.replicate k (.ack n) ++ [.timerFired n]) =
        ([], [.resolvedAcks n k])) := by
  refine ⟨rfl, rfl, ?_, ?_, ?_⟩
  · rw [broadcastAndWaitInit]
    simp
    omega
  · intro hk
    have hsplit : List.replicate k (AckEvent.ack n) =
        List.replicate e (AckEvent.ack n) ++
          List.replicate (k - e) (AckEvent.ack n) := by
      rw [← List.replicate_add]
      congr 1
      omega
    rw [hsplit, ackRun_append, ackRun_acks_reach n e e 0 (by omega) he]
    simp [ackRun_nil_map]
  · intro hk
    rw [ackRun_append, ackRun_acks_below n e k 0 (by omega)]
    simp [ackRun, ackStep, alookup, aremove]

theorem c7_witness :
    1 ≤ 2 ∧
    ackRun [("b", ⟨2, 0⟩)] (List.replicate 2 (.ack "b")) =
      ([], [.resolvedAcks "b" 2]) ∧
    ackRun [("b", ⟨2, 0⟩)] (List.replicate 1 (.ack "b") ++ [.timerFired "b"]) =
      ([], [.resolvedAcks "b" 1]) ∧
    broadcastAndWaitInit none = .immediate0 := by
  have h2 := c7_broadcastAndWait_resolution "b" 2 2 (by decide)
  have h1 := c7_broadcastAndWait_resolution "b" 2 1 (by decide)
  exact ⟨by decide, h2.2.2.2.1 (by decide), h1.2.2.2.2 (by decide), h2.1⟩

end DiscordCluster


namespace DiscordCluster

/-! ### Claim C5 — fleet-ready fires exactly once -/

theorem hcr_duplicate (s : MgrState) (id : Nat)
    (h : alookup s.clusters id = some true) :
    handleClientReady s id = (s, []) := by
  unfold handleClientReady
  rw [h]

theorem hcr_flip_result (s : MgrState) (id : Nat)
    (h1 : alookup s.clusters id = some false)
    (hm : s.mgrReady = false)
    (hall : (aset s.clusters id true).all (fun p => p.2) = true)
    (hlen : (aset s.clusters id true).length = s.totalClusters) :
    handleClientReady s id =
      (⟨aset s.clusters id true, true, s.totalClusters⟩,
        .fleetReady :: (aset s.clusters id true).map
          (fun p => .managerReadySent p.1)) := by
  unfold handleClientReady
  rw [h1]
  simp only
  rw [if_pos ⟨by simp [hm], by simpa using hall, hlen⟩]

theorem hcr_ready_mono (s : MgrState) (id : Nat) (h : s.mgrReady = true) :
    (handleClientReady s id).1.mgrReady = true := by
  unfold handleClientReady
  cases halook : alookup s.clusters id with
  | none => exact h
  | some b =>
    cases b
    · simp only
      split
      · rfl
      · exact h
    · exact h

theorem hcr_flip_iff (s : MgrState) (id : Nat) :
    (s.mgrReady = false ∧ (handleClientReady s id).1.mgrReady = true) ↔
      (alookup s.clusters id = some false ∧ s.mgrReady = false ∧
        (aset s.clusters id true).all (fun p => p.2) = true ∧
        (aset s.clusters id true).length = s.totalClusters) := by
  constructor
  · rintro ⟨hm, hflip⟩
    unfold handleClientReady at hflip
    cases halook : alookup s.clusters id with
    | none =>
      rw [halook] at hflip
      rw [hm] at hflip
      cases hflip
    | some b =>
      cases b
      · rw [halook] at hflip
        simp only at hflip
        by_cases hcond : ¬ (s.mgrReady = true) ∧
            ((aset s.clusters id true).all (fun p => p.2)) = true ∧
            (aset s.clusters id true).length = s.totalClusters
        · exact ⟨rfl, hm, hcond.2.1, hcond.2.2⟩
        · rw [if_neg (by simpa using hcond)] at hflip
          rw [hm] at hflip
          cases hflip
      · rw [halook] at hflip
        rw [hm] at hflip
        cases hflip
  · rintro ⟨h1, hm, hall, hlen⟩
    refine ⟨hm, ?_⟩
    rw [hcr_flip_result s id h1 hm hall hlen]

theorem hcr_noflip_outputs (s : MgrState) (id : Nat)
    (h : ¬ (s.mgrReady = false ∧ (handleClientReady s id).1.mgrReady
      = true)) :
    (handleClientReady s id).2 = [] := by
  unfold handleClientReady at *
  cases halook : alookup s.clusters id with
  | none => rfl
  | some b =>
    cases b
    · rw [halook] at h
      simp only at h ⊢
      split
      · rename_i hcond
        rw [if_pos hcond] at h
        have hm : s.mgrReady = false := by
          have hc := hcond.1
          cases hb : s.mgrReady
          · rfl
          · exact absurd hb hc
        exact absurd ⟨hm, rfl⟩ h
      · rfl
    · rfl

theorem count_fleetReady_in_sends (l : List (Nat × Bool)) :
    (l.map (fun p => MgrOut.managerReadySent p.1)).count MgrOut.fleetReady
      = 0 := by
  rw [List.count_eq_zero]
  intro hmem
  obtain ⟨p, _, hp⟩ := List.mem_map.1 hmem
  cases hp

theorem hcr_fleet_count (s : MgrState) (id : Nat) :
    (handleClientReady s id).2.count MgrOut.fleetReady =
      if s.mgrReady = false ∧ (handleClientReady s id).1.mgrReady = true
      then 1 else 0 := by
  by_cases hflip : s.mgrReady = false ∧ (handleClientReady s id).1.mgrReady
      = true
  · obtain ⟨h1, h2, h3, h4⟩ := (hcr_flip_iff s id).1 hflip
    rw [if_pos hflip, hcr_flip_result s id h1 h2 h3 h4]
    simp [List.count_cons, count_fleetReady_in_sends]
  · rw [if_neg hflip, hcr_noflip_outputs s id hflip]
    rfl

theorem mgrRun_fleet_bound (ids : List Nat) : ∀ s : MgrState,
    (mgrRun s ids).2.count MgrOut.fleetReady ≤
      (if s.mgrReady = true then 0 else 1) := by
  induction ids with
  | nil =>
    intro s
    simp [mgrRun]
  | cons id t ih =>
    intro s
    rcases hstep : handleClientReady s id with ⟨s1, ds⟩
    simp only [mgrRun, hstep]
    rw [List.count_append]
    have hds : ds.count .fleetReady =
        if s.mgrReady = false ∧ s1.mgrReady = true then 1 else 0 := by
      have h := hcr_fleet_count s id
      rw [hstep] at h
      exact h
    by_cases hsm : s.mgrReady = true
    · have h1 : s1.mgrReady = true := by
        have h := hcr_ready_mono s id hsm
        rw [hstep] at h
        exact h
      have hrest := ih s1
      rw [if_pos h1] at hrest
      rw [if_pos hsm]
      have hds0 : ds.count .fleetReady = 0 := by
        rw [hds, if_neg]
        rintro ⟨hc, _⟩
        rw [hsm] at hc
        cases hc
      omega
    · rw [if_neg hsm]
      by_cases h1 : s1.mgrReady = true
      · have hrest := ih s1
        rw [if_pos h1] at hrest
        have hds1 : ds.count .fleetReady ≤ 1 := by
          rw [hds]
          split <;> omega
        omega
      · have hrest := ih s1
        rw [if_neg h1] at hrest
        have hds0 : ds.count .fleetReady = 0 := by
          rw [hds, if_neg]
          rintro ⟨_, hc⟩
          exact h1 hc
        omega

/-- C5: a duplicate ClientReady changes nothing and sends nothing; the
manager's ready flag flips false→true exactly when the readying cluster
makes every registered cluster ready and the registry size equals
`totalClusters`; at that flip `ManagerReady` is sent to every registered
cluster exactly once; across any sequence of ClientReady messages the
fleet-ready notification fires at most once, and never again once the
manager is ready. -/
theorem c5_fleet_ready_exactly_once (s : MgrState) (id : Nat)
    (ids : List Nat) (hnd : (s.clusters.map Prod.fst).Nodup) :
    (alookup s.clusters id = some true → handleClientReady s id = (s, [])) ∧
    ((s.mgrReady = false ∧ (handleClientReady s id).1.mgrReady = true) ↔
      (alookup s.clusters id = some false ∧ s.mgrReady = false ∧
        (aset s.clusters id true).all (fun p => p.2) = true ∧
        (aset s.clusters id true).length = s.totalClusters)) ∧
    (s.mgrReady = false → (handleClientReady s id).1.mgrReady = true →
      ∀ i ∈ s.clusters.map Prod.fst,
        (handleClientReady s id).2.count (MgrOut.managerReadySent i) = 1) ∧
    (mgrRun s ids).2.count MgrOut.fleetReady ≤ 1 ∧
    (s.mgrReady = true → (mgrRun s ids).2.count MgrOut.fleetReady = 0) := by
  refine ⟨hcr_duplicate s id, hcr_flip_iff s id, ?_, ?_, ?_⟩
  · intro hm hflip i hi
    obtain ⟨h1, h2, h3, h4⟩ := (hcr_flip_iff s id).1 ⟨hm, hflip⟩
    rw [hcr_flip_result s id h1 h2 h3 h4]
    simp only [List.count_cons]
    have hkeys : (aset s.clusters id true).map Prod.fst =
        s.clusters.map Prod.fst := keys_aset_eq_of_mem _ _ _ _ h1
    have hinj : Function.Injective MgrOut.managerReadySent := by
      intro a b hab
      cases hab
      rfl
    have hmap : (aset s.clusters id true).map
        (fun p => MgrOut.managerReadySent p.1) =
        (s.clusters.map Prod.fst).map MgrOut.managerReadySent := by
      rw [← hkeys, List.map_map]
      rfl
    rw [hmap, List.count_map_of_injective _ _ hinj]
    have hcount : (s.clusters.map Prod.fst).count i = 1 :=
      List.count_eq_one_of_mem hnd hi
    simp [hcount]
  · refine le_trans (mgrRun_fleet_bound ids s) ?_
    split <;> omega
  · intro hm
    have h := mgrRun_fleet_bound ids s
    rw [if_pos hm] at h
    omega

/-- Concrete fleet of two clusters: cluster 0 already ready, cluster 1's
ClientReady completes the fleet. -/
def mgrS0 : MgrState := ⟨[(0, true), (1, false)], false, 2⟩

theorem c5_witness :
    ((mgrS0.clusters.map Prod.fst).Nodup ∧
      mgrS0.mgrReady = false ∧
      (handleClientReady mgrS0 1).1.mgrReady = true) ∧
    (handleClientReady mgrS0 1).2.count (MgrOut.managerReadySent 0) = 1 ∧
    (handleClientReady mgrS0 1).2.count (MgrOut.managerReadySent 1) = 1 ∧
    (mgrRun mgrS0 [1, 1]).2.count MgrOut.fleetReady ≤ 1 := by
  have h := c5_fleet_ready_exactly_once mgrS0 1 [1, 1] (by decide)
  refine ⟨⟨by decide, by decide, by decide⟩, ?_, ?_, h.2.2.2.1⟩
  · exact h.2.2.1 (by decide) (by decide) 0 (by decide)
  · exact h.2.2.1 (by decide) (by decide) 1 (by decide)

end DiscordCluster

namespace DiscordCluster

/-! ### Claim C1 — at-most-once resolution per nonce -/

theorem countKey_aremove_ne {κ α : Type} [DecidableEq κ]
    (l : List (κ × α)) (k n : κ) (h : k ≠ n) :
    countKey (aremove l k) n = countKey l n := by
  induction l with
  | nil => rfl
  | cons hd t ih =>
    obtain ⟨a, w⟩ := hd
    by_cases ha : a = k
    · subst ha
      simp [aremove, countKey_cons, h]
    · simp [aremove, ha, countKey_cons, ih]

theorem countKey_aset_ne {κ α : Type} [DecidableEq κ]
    (l : List (κ × α)) (k n : κ) (v : α) (h : k ≠ n) :
    countKey (aset l k v) n = countKey l n := by
  induction l with
  | nil => simp [aset, countKey_cons, countKey_nil, h]
  | cons hd t ih =>
    obtain ⟨a, w⟩ := hd
    by_cases ha : a = k
    · subst ha
      simp [aset, countKey_cons, h]
    · simp [aset, ha, countKey_cons, ih]

theorem count_filter_ne_self {α : Type} [DecidableEq α]
    (l : List α) (n : α) :
    (l.filter (fun x => !decide (x = n))).count n = 0 := by
  rw [List.count_eq_zero]
  intro hmem
  have h := (List.mem_filter.1 hmem).2
  simp at h

theorem count_filter_ne_other {α : Type} [DecidableEq α]
    (l : List α) (k n : α) (h : ¬ k = n) :
    (l.filter (fun x => !decide (x = k))).count n = l.count n :=
  List.count_filter (by simpa using fun hh : n = k => h hh.symm)

theorem contains_count_pos {α : Type} [DecidableEq α]
    (l : List α) (n : α) (h : l.contains n = true) : 1 ≤ l.count n :=
  List.count_pos_iff.2 (by simpa using h)

theorem count_zero_not_contains {α : Type} [DecidableEq α]
    (l : List α) (n : α) (h : l.count n = 0) : l.contains n = false := by
  by_contra hc
  have hc' : l.contains n = true := by
    cases hcc : l.contains n
    · exact absurd hcc hc
    · rfl
  have := contains_count_pos l n hc'
  omega

end DiscordCluster

namespace DiscordCluster

/-- Each processing step either leaves the nonce's entries alone and
delivers nothing for it, or removes an entry while delivering once: the
entry count plus the deliveries of one step never exceed the entry count
before the step. -/
theorem step_pendingCount_le (s : ClientState) (e : Event) (n : String) :
    pendingCount (step s e).1 n + deliveriesFor n (step s e).2 ≤
      pendingCount s n := by
  obtain ⟨pr, pa, st⟩ := s
  cases e with
  | handlerResponse n' src v =>
    simp only [step, stepHandlerResponse]
    cases halook : alookup pa n' with
    | some p =>
      cases src with
      | some c =>
        simp only [halook]
        split
        · by_cases hn : n' = n
          · subst hn
            have hc := countKey_aremove_self pa n' p halook
            simp [pendingCount, deliveriesFor, Delivery.nonce]
            omega
          · have hc := countKey_aremove_ne pa n' n hn
            simp [pendingCount, deliveriesFor, Delivery.nonce, hn, hc]
        · by_cases hn : n' = n
          · subst hn
            have hc := countKey_aset_of_mem pa n'
              (⟨aset p.results c (RVal.ok v), p.expected⟩ : PendingAllEntry) p halook
            simp [pendingCount, deliveriesFor, hc]
          · have hc := countKey_aset_ne pa n' n
              (⟨aset p.results c (RVal.ok v), p.expected⟩ : PendingAllEntry) hn
            simp [pendingCount, deliveriesFor, hc]
      | none =>
        simp only [halook]
        split
        · rename_i hcont
          by_cases hn : n' = n
          · subst hn
            have h0 := count_filter_ne_self pr n'
            have h1 := contains_count_pos pr n' hcont
            simp [pendingCount, deliveriesFor, Delivery.nonce, h0]
            omega
          · have h0 := count_filter_ne_other pr n' n hn
            simp [pendingCount, deliveriesFor, Delivery.nonce, hn, h0]
        · simp [pendingCount, deliveriesFor]
    | none =>
      simp only [halook]
      split
      · rename_i hcont
        by_cases hn : n' = n
        · subst hn
          have h0 := count_filter_ne_self pr n'
          have h1 := contains_count_pos pr n' hcont
          simp [pendingCount, deliveriesFor, Delivery.nonce, h0]
          omega
        · have h0 := count_filter_ne_other pr n' n hn
          simp [pendingCount, deliveriesFor, Delivery.nonce, hn, h0]
      · simp [pendingCount, deliveriesFor]
  | handlerError n' src msg =>
    simp only [step, stepHandlerError]
    cases halook : alookup pa n' with
    | some p =>
      cases src with
      | some c =>
        simp only [halook]
        split
        · by_cases hn : n' = n
          · subst hn
            have hc := countKey_aremove_self pa n' p halook
            simp [pendingCount, deliveriesFor, Delivery.nonce]
            omega
          · have hc := countKey_aremove_ne pa n' n hn
            simp [pendingCount, deliveriesFor, Delivery.nonce, hn, hc]
        · by_cases hn : n' = n
          · subst hn
            have hc := countKey_aset_of_mem pa n'
              (⟨aset p.results c (RVal.err msg), p.expected⟩ : PendingAllEntry) p halook
            simp [pendingCount, deliveriesFor, hc]
          · have hc := countKey_aset_ne pa n' n
              (⟨aset p.results c (RVal.err msg), p.expected⟩ : PendingAllEntry) hn
            simp [pendingCount, deliveriesFor, hc]
      | none =>
        simp only [halook]
        split
        · rename_i hcont
          by_cases hn : n' = n
          · subst hn
            have h0 := count_filter_ne_self pr n'
            have h1 := contains_count_pos pr n' hcont
            simp [pendingCount, deliveriesFor, Delivery.nonce, h0]
            omega
          · have h0 := count_filter_ne_other pr n' n hn
            simp [pendingCount, deliveriesFor, Delivery.nonce, hn, h0]
        · simp [pendingCount, deliveriesFor]
    | none =>
      simp only [halook]
      split
      · rename_i hcont
        by_cases hn : n' = n
        · subst hn
          have h0 := count_filter_ne_self pr n'
          have h1 := contains_count_pos pr n' hcont
          simp [pendingCount, deliveriesFor, Delivery.nonce, h0]
          omega
        · have h0 := count_filter_ne_other pr n' n hn
          simp [pendingCount, deliveriesFor, Delivery.nonce, hn, h0]
      · simp [pendingCount, deliveriesFor]
  | storeResponse n' v =>
    simp only [step]
    split
    · rename_i hcont
      by_cases hn : n' = n
      · subst hn
        have h0 := count_filter_ne_self st n'
        have h1 := contains_count_pos st n' hcont
        simp [pendingCount, deliveriesFor, Delivery.nonce, h0]
        first
        | omega
        | exact List.count_pos_iff.1 h1
      · have h0 := count_filter_ne_other st n' n hn
        simp [pendingCount, deliveriesFor, Delivery.nonce, hn, h0]
    · simp [pendingCount, deliveriesFor]
  | requestTimeout n' =>
    simp only [step]
    split
    · rename_i hcont
      by_cases hn : n' = n
      · subst hn
        have h0 := count_filter_ne_self pr n'
        have h1 := contains_count_pos pr n' hcont
        simp [pendingCount, deliveriesFor, Delivery.nonce, h0]
        omega
      · have h0 := count_filter_ne_other pr n' n hn
        simp [pendingCount, deliveriesFor, Delivery.nonce, hn, h0]
    · simp [pendingCount, deliveriesFor]
  | allTimeout n' =>
    simp only [step]
    cases halook : alookup pa n' with
    | some p =>
      simp only [halook]
      by_cases hn : n' = n
      · subst hn
        have hc := countKey_aremove_self pa n' p halook
        simp [pendingCount, deliveriesFor, Delivery.nonce]
        omega
      · have hc := countKey_aremove_ne pa n' n hn
        simp [pendingCount, deliveriesFor, Delivery.nonce, hn, hc]
    | none =>
      simp only [halook]
      simp [pendingCount, deliveriesFor]
  | storeTimeout n' =>
    simp only [step]
    split
    · rename_i hcont
      by_cases hn : n' = n
      · subst hn
        have h0 := count_filter_ne_self st n'
        have h1 := contains_count_pos st n' hcont
        simp [pendingCount, deliveriesFor, Delivery.nonce, h0]
        first
        | omega
        | exact List.count_pos_iff.1 h1
      · have h0 := count_filter_ne_other st n' n hn
        simp [pendingCount, deliveriesFor, Delivery.nonce, hn, h0]
    · simp [pendingCount, deliveriesFor]

end DiscordCluster

namespace DiscordCluster

theorem run_pendingCount_le (evs : List Event) :
    ∀ (s : ClientState) (n : String),
      pendingCount (run s evs).1 n + deliveriesFor n (run s evs).2 ≤
        pendingCount s n := by
  induction evs with
  | nil =>
    intro s n
    simp [run, deliveriesFor]
  | cons e t ih =>
    intro s n
    rcases hstep : step s e with ⟨s1, ds⟩
    rcases hrun : run s1 t with ⟨s2, ds2⟩
    simp only [run, hstep, hrun]
    have h1 := step_pendingCount_le s e n
    rw [hstep] at h1
    have h2 := ih s1 n
    rw [hrun] at h2
    simp only [deliveriesFor, List.countP_append] at *
    omega

/-- A reply or timer event whose nonce has no pending entry anywhere is a
complete no-op: no state change, nothing delivered. -/
theorem step_no_entry (s : ClientState) (e : Event) (n : String)
    (hpc : pendingCount s n = 0) (hn : e.nonce = n) : step s e = (s, []) := by
  obtain ⟨pr, pa, st⟩ := s
  have hp : pr.count n = 0 := by
    have h := hpc
    rw [show pendingCount ⟨pr, pa, st⟩ n =
      pr.count n + countKey pa n + st.count n from rfl] at h
    omega
  have hpa : countKey pa n = 0 := by
    have h := hpc
    rw [show pendingCount ⟨pr, pa, st⟩ n =
      pr.count n + countKey pa n + st.count n from rfl] at h
    omega
  have hst : st.count n = 0 := by
    have h := hpc
    rw [show pendingCount ⟨pr, pa, st⟩ n =
      pr.count n + countKey pa n + st.count n from rfl] at h
    omega
  have hpc' : n ∉ pr := List.count_eq_zero.1 hp
  have hpac : alookup pa n = none := (alookup_eq_none_iff pa n).2 hpa
  have hstc : n ∉ st := List.count_eq_zero.1 hst
  cases e with
  | handlerResponse n' src v =>
    have : n' = n := hn
    subst this
    cases src <;> simp [step, stepHandlerResponse, hpac, hpc']
  | handlerError n' src msg =>
    have : n' = n := hn
    subst this
    cases src <;> simp [step, stepHandlerError, hpac, hpc']
  | storeResponse n' v =>
    have : n' = n := hn
    subst this
    simp [step, hstc]
  | requestTimeout n' =>
    have : n' = n := hn
    subst this
    simp [step, hpc']
  | allTimeout n' =>
    have : n' = n := hn
    subst this
    simp [step, hpac]
  | storeTimeout n' =>
    have : n' = n := hn
    subst this
    simp [step, hstc]

/-- C1: starting from any state holding at most one pending entry for a
nonce (as every state the code builds does — nonces are fresh), any
sequence of incoming `HandlerResponse`/`HandlerError`/`StoreResponse`
messages and timer firings delivers a resolution for that nonce at most
once; a step that delivers for the nonce leaves no entry for it behind;
and once no entry exists, any further message with that nonce changes no
state and delivers nothing. -/
theorem c1_resolved_at_most_once (s : ClientState) (evs : List Event)
    (n : String) (hone : pendingCount s n ≤ 1) :
    deliveriesFor n (run s evs).2 ≤ 1 ∧
    (∀ e : Event, 1 ≤ deliveriesFor n (step s e).2 →
      pendingCount (step s e).1 n = 0) ∧
    (pendingCount s n = 0 → ∀ e : Event, e.nonce = n → step s e = (s, [])) := by
  refine ⟨?_, ?_, fun h0 e hn => step_no_entry s e n h0 hn⟩
  · have h := run_pendingCount_le evs s n
    omega
  · intro e hdel
    have h := step_pendingCount_le s e n
    omega

theorem c1_witness :
    pendingCount ⟨["a"], [], []⟩ "a" ≤ 1 ∧
    (deliveriesFor "a"
        (run ⟨["a"], [], []⟩
          [.handlerResponse "a" none (.num 1),
            .handlerResponse "a" none (.num 2)]).2 ≤ 1 ∧
      (∀ e : Event,
        1 ≤ deliveriesFor "a" (step ⟨["a"], [], []⟩ e).2 →
          pendingCount (step ⟨["a"], [], []⟩ e).1 "a" = 0) ∧
      (pendingCount ⟨["a"], [], []⟩ "a" = 0 → ∀ e : Event,
        e.nonce = "a" → step ⟨["a"], [], []⟩ e = (⟨["a"], [], []⟩, []))) :=
  ⟨by decide,
    c1_resolved_at_most_once ⟨["a"], [], []⟩
      [.handlerResponse "a" none (.num 1),
        .handlerResponse "a" none (.num 2)] "a" (by decide)⟩

end DiscordCluster

namespace DiscordCluster

/-! ### Claims C2/C3 — requestAll aggregation -/

/-- The incoming reply event that a remote unit's answer becomes (the
manager relays it back tagged with the responding cluster id). -/
def replyEvent (n : String) (p : Int × RVal) : Event :=
  match p.2 with
  | .ok v => .handlerResponse n (some p.1) v
  | .err m => .handlerError n (some p.1) m

/-- Record a list of replies into a results map, in arrival order. -/
def insertAll (l : List (Int × RVal)) (rs : List (Int × RVal)) :
    List (Int × RVal) :=
  rs.foldl (fun acc p => aset acc p.1 p.2) l

theorem requestAllInit_pending (total : Nat) (lo : LocalOutcome)
    (e : PendingAllEntry) (h : requestAllInit total lo = .pending e) :
    e.results = localSeed lo ∧
    e.expected = (total - 1) + (localSeed lo).length ∧ 2 ≤ total := by
  unfold requestAllInit at h
  by_cases h0 : total = 0
  · rw [if_pos h0] at h
    cases h
  · rw [if_neg h0] at h
    simp only at h
    by_cases h1 : total - 1 = 0
    · rw [if_pos h1] at h
      cases h
    · rw [if_neg h1] at h
      cases h
      exact ⟨rfl, rfl, by omega⟩

theorem localSeed_keys_nodup (lo : LocalOutcome) :
    ((localSeed lo).map Prod.fst).Nodup := by
  cases lo <;> simp [localSeed]

/-- Processing one tagged remote reply against the registered broadcast
entry: the reply is recorded under the responding cluster id, and the
broadcast resolves exactly when the updated map reaches the expected
size. -/
theorem step_raState_reply (n : String) (res : List (Int × RVal))
    (exp : Nat) (c : Int) (r : RVal) :
    step (raState n ⟨res, exp⟩) (replyEvent n (c, r)) =
      if (aset res c r).length ≥ exp then
        (⟨[], [], []⟩, [.resolvedAll n (aset res c r)])
      else (raState n ⟨aset res c r, exp⟩, []) := by
  cases r with
  | ok v =>
    simp only [replyEvent, step, stepHandlerResponse, raState]
    rw [show alookup [(n, (⟨res, exp⟩ : PendingAllEntry))] n =
      some ⟨res, exp⟩ by simp [alookup]]
    split
    · rename_i p c2 heq1 heq2
      injection heq1 with h1
      injection heq2 with h2
      subst h1
      subst h2
      split
      · rename_i hge
        simp only [] at hge
        simp [aremove, hge]
      · rename_i hlt
        simp only [] at hlt
        simp [aset, hlt]
    · rename_i hno
      cases hno ⟨res, exp⟩ c rfl rfl
  | err m =>
    simp only [replyEvent, step, stepHandlerError, raState]
    rw [show alookup [(n, (⟨res, exp⟩ : PendingAllEntry))] n =
      some ⟨res, exp⟩ by simp [alookup]]
    split
    · rename_i p c2 heq1 heq2
      injection heq1 with h1
      injection heq2 with h2
      subst h1
      subst h2
      split
      · rename_i hge
        simp only [] at hge
        simp [aremove, hge]
      · rename_i hlt
        simp only [] at hlt
        simp [aset, hlt]
    · rename_i hno
      cases hno ⟨res, exp⟩ c rfl rfl

theorem insertAll_alookup_ne (t : List (Int × RVal)) :
    ∀ (l : List (Int × RVal)) (c : Int), (∀ p ∈ t, p.1 ≠ c) →
      alookup (insertAll l t) c = alookup l c := by
  induction t with
  | nil => intro l c _; rfl
  | cons q t' ih =>
    intro l c h
    simp only [insertAll, List.foldl_cons]
    have h1 : q.1 ≠ c := h q (List.mem_cons_self q t')
    have h2 := ih (aset l q.1 q.2) c (fun p hp => h p (List.mem_cons_of_mem q hp))
    rw [show (insertAll (aset l q.1 q.2) t') =
      t'.foldl (fun acc p => aset acc p.1 p.2) (aset l q.1 q.2) from rfl] at h2
    rw [h2, alookup_aset]
    rw [if_neg (fun hc : c = q.1 => h1 hc.symm)]

theorem insertAll_lookup (rs : List (Int × RVal)) :
    ∀ (res : List (Int × RVal)), (rs.map Prod.fst).Nodup →
      ∀ p ∈ rs, alookup (insertAll res rs) p.1 = some p.2 := by
  induction rs with
  | nil =>
    intro res _ p hp
    cases hp
  | cons q t ih =>
    intro res hnd p hp
    simp only [List.map_cons, List.nodup_cons] at hnd
    obtain ⟨hq, hnd'⟩ := hnd
    rcases List.mem_cons.1 hp with rfl | hp'
    · simp only [insertAll, List.foldl_cons]
      have hpres : ∀ x ∈ t, x.1 ≠ p.1 := by
        intro x hx hc
        exact hq (hc ▸ List.mem_map.2 ⟨x, hx, rfl⟩)
      have := insertAll_alookup_ne t (aset res p.1 p.2) p.1 hpres
      rw [show (t.foldl (fun acc x => aset acc x.1 x.2) (aset res p.1 p.2)) =
        insertAll (aset res p.1 p.2) t from rfl]
      rw [this, alookup_aset]
      simp
    · simp only [insertAll, List.foldl_cons]
      exact ih (aset res q.1 q.2) hnd' p hp'

theorem insertAll_keys_nodup (rs : List (Int × RVal)) :
    ∀ (res : List (Int × RVal)), ((res.map Prod.fst).Nodup) →
      ((insertAll res rs).map Prod.fst).Nodup := by
  induction rs with
  | nil => intro res h; exact h
  | cons q t ih =>
    intro res h
    simp only [insertAll, List.foldl_cons]
    exact ih (aset res q.1 q.2) (keys_nodup_aset res q.1 q.2 h)

theorem toClusterResult_clusterId (p : Int × RVal) :
    (toClusterResult p).clusterId = p.1 := by
  obtain ⟨c, r⟩ := p
  cases r <;> rfl

theorem toCollection_get (l : List (Int × RVal)) (c : Int) (r : RVal)
    (hnd : (l.map Prod.fst).Nodup) (h : alookup l c = some r) :
    (toCollection l).get c = some (toClusterResult (c, r)) := by
  induction l with
  | nil => cases h
  | cons q t ih =>
    obtain ⟨a, w⟩ := q
    simp only [List.map_cons, List.nodup_cons] at hnd
    obtain ⟨ha, hnd'⟩ := hnd
    by_cases hac : a = c
    · subst hac
      have hw : w = r := by simpa [alookup] using h
      subst hw
      simp only [toCollection, List.map_cons, ResultCollection.get]
      rw [List.find?_cons_of_pos]
      simp [toClusterResult_clusterId]
    · have h' : alookup t c = some r := by simpa [alookup, hac] using h
      simp only [toCollection, List.map_cons, ResultCollection.get]
      rw [List.find?_cons_of_neg]
      · exact ih hnd' h'
      · simp [toClusterResult_clusterId, hac]

end DiscordCluster

namespace DiscordCluster

/-- With no single-request and no store promises pending, a step can only
deliver broadcast resolutions (there is nothing to reject). -/
theorem step_empty_promises (s : ClientState) (e : Event)
    (hp : s.promises = []) (hs : s.storePromises = []) :
    (step s e).1.promises = [] ∧ (step s e).1.storePromises = [] ∧
    ∀ d ∈ (step s e).2, ∃ m rs, d = Delivery.resolvedAll m rs := by
  obtain ⟨pr, pa, st⟩ := s
  simp only at hp hs
  subst hp
  subst hs
  cases e with
  | handlerResponse n' src v =>
    simp only [step, stepHandlerResponse]
    cases halook : alookup pa n' with
    | some p =>
      cases src with
      | some c =>
        simp only [halook]
        split
        · refine ⟨rfl, rfl, ?_⟩
          intro d hd
          simp only [List.mem_singleton] at hd
          subst hd
          exact ⟨_, _, rfl⟩
        · refine ⟨rfl, rfl, ?_⟩
          intro d hd
          simp at hd
      | none =>
        simp only [halook]
        simp
    | none =>
      simp only [halook]
      simp
  | handlerError n' src msg =>
    simp only [step, stepHandlerError]
    cases halook : alookup pa n' with
    | some p =>
      cases src with
      | some c =>
        simp only [halook]
        split
        · refine ⟨rfl, rfl, ?_⟩
          intro d hd
          simp only [List.mem_singleton] at hd
          subst hd
          exact ⟨_, _, rfl⟩
        · refine ⟨rfl, rfl, ?_⟩
          intro d hd
          simp at hd
      | none =>
        simp only [halook]
        simp
    | none =>
      simp only [halook]
      simp
  | storeResponse n' v => simp [step]
  | requestTimeout n' => simp [step]
  | allTimeout n' =>
    simp only [step]
    cases halook : alookup pa n' with
    | some p =>
      simp only [halook]
      refine ⟨by simp, by simp, ?_⟩
      intro d hd
      simp only [List.mem_singleton] at hd
      subst hd
      exact ⟨_, _, rfl⟩
    | none =>
      simp only [halook]
      simp
  | storeTimeout n' => simp [step]

theorem run_empty_promises (evs : List Event) :
    ∀ s : ClientState, s.promises = [] → s.storePromises = [] →
      ∀ d ∈ (run s evs).2, ∃ m rs, d = Delivery.resolvedAll m rs := by
  induction evs with
  | nil =>
    intro s _ _ d hd
    simp [run] at hd
  | cons e t ih =>
    intro s hp hs d hd
    rcases hstep : step s e with ⟨s1, ds⟩
    rcases hrun : run s1 t with ⟨s2, ds2⟩
    simp only [run, hstep, hrun] at hd
    have h := step_empty_promises s e hp hs
    rw [hstep] at h
    rcases List.mem_append.1 hd with h1 | h2
    · exact h.2.2 d h1
    · refine ih s1 h.1 h.2.1 d ?_
      rw [hrun]
      exact h2

theorem run_cons (s : ClientState) (e : Event) (evs : List Event) :
    run s (e :: evs) =
      ((run (step s e).1 evs).1, (step s e).2 ++ (run (step s e).1 evs).2) := by
  simp only [run]

/-- Feeding the registered broadcast exactly the missing replies — one per
absent unit — resolves it at the last one with all entries recorded. -/
theorem run_raState_replies (n : String) :
    ∀ (rs : List (Int × RVal)) (res : List (Int × RVal)) (exp : Nat),
      (∀ p ∈ rs, alookup res p.1 = none) →
      ((rs.map Prod.fst).Nodup) →
      res.length + rs.length = exp →
      rs ≠ [] →
      run (raState n ⟨res, exp⟩) (rs.map (replyEvent n)) =
        (⟨[], [], []⟩, [.resolvedAll n (insertAll res rs)]) := by
  intro rs
  induction rs with
  | nil =>
    intro res exp _ _ _ hne
    exact absurd rfl hne
  | cons p t ih =>
    intro res exp hfresh hnd hlen _
    obtain ⟨c, r⟩ := p
    have hfst : alookup res c = none := hfresh (c, r) (List.mem_cons_self _ _)
    have hlen1 : (aset res c r).length = res.length + 1 :=
      length_aset_of_absent res c r hfst
    cases t with
    | nil =>
      have hcond : (aset res c r).length ≥ exp := by
        simp at hlen
        omega
      simp only [List.map_cons, List.map_nil, run, step_raState_reply,
        if_pos hcond]
      simp [insertAll]
    | cons q t' =>
      have hcond : ¬ (aset res c r).length ≥ exp := by
        simp only [List.length_cons] at hlen
        omega
      rw [List.map_cons, List.nodup_cons] at hnd
      obtain ⟨hc, hnd'⟩ := hnd
      have hfresh' : ∀ x ∈ q :: t', alookup (aset res c r) x.1 = none := by
        intro x hx
        rw [alookup_aset]
        have hxne : ¬ x.1 = c := by
          intro hxc
          exact hc (hxc ▸ List.mem_map.2 ⟨x, hx, rfl⟩)
        rw [if_neg hxne]
        exact hfresh x (List.mem_cons_of_mem _ hx)
      have hlen' : (aset res c r).length + (q :: t').length = exp := by
        simp only [List.length_cons] at hlen ⊢
        omega
      have hrun := ih (aset res c r) exp hfresh' hnd' hlen' (by simp)
      have hstep1 : step (raState n ⟨res, exp⟩) (replyEvent n (c, r)) =
          (raState n ⟨aset res c r, exp⟩, []) := by
        rw [step_raState_reply, if_neg hcond]
      rw [List.map_cons, run_cons]
      simp only [hstep1]
      rw [hrun]
      simp [insertAll]

end DiscordCluster

namespace DiscordCluster

/-- C2: from a `requestAll` registration (the positive-timeout messaging
path), any sequence of reply and timer events only ever resolves the
broadcast — no delivery rejects it; the timer, firing while the entry is
pending, resolves with exactly the results received so far (units that
never replied are simply absent); and if every missing unit's reply
arrives the broadcast resolves at the last one with one entry per unit,
where a `HandlerError` reply contributes a `status = error` entry
carrying the error message rather than a rejection. -/
theorem c2_requestAll_resolves_never_rejects (total : Nat)
    (lo : LocalOutcome) (e : PendingAllEntry) (n : String)
    (hreg : requestAllInit total lo = .pending e) :
    (∀ evs : List Event, ∀ d ∈ (run (raState n e) evs).2,
      ∃ m rs, d = Delivery.resolvedAll m rs) ∧
    (∀ res : List (Int × RVal),
      step (raState n ⟨res, e.expected⟩) (.allTimeout n) =
        (⟨[], [], []⟩, [.resolvedAll n res])) ∧
    (∀ rs : List (Int × RVal),
      (∀ p ∈ rs, alookup e.results p.1 = none) →
      (rs.map Prod.fst).Nodup →
      e.results.length + rs.length = e.expected →
      run (raState n e) (rs.map (replyEvent n)) =
        (⟨[], [], []⟩, [.resolvedAll n (insertAll e.results rs)]) ∧
      (∀ p ∈ rs, (toCollection (insertAll e.results rs)).get p.1 =
        some (toClusterResult p)) ∧
      (∀ c m, (c, RVal.err m) ∈ rs →
        (toCollection (insertAll e.results rs)).get c =
          some ⟨c, .error, .undef, some m⟩)) := by
  obtain ⟨hres, hexp, htot⟩ := requestAllInit_pending total lo e hreg
  refine ⟨?_, ?_, ?_⟩
  · intro evs d hd
    exact run_empty_promises evs (raState n e) rfl rfl d hd
  · intro res
    simp [step, raState, alookup, aremove]
  · intro rs hfresh hnodup hlen
    have hseedlen : e.results.length = (localSeed lo).length := by
      rw [hres]
    have hne : rs ≠ [] := by
      intro h0
      subst h0
      simp only [List.length_nil, Nat.add_zero] at hlen
      omega
    have hrun : run (raState n e) (rs.map (replyEvent n)) =
        (⟨[], [], []⟩, [.resolvedAll n (insertAll e.results rs)]) :=
      run_raState_replies n rs e.results e.expected hfresh hnodup hlen hne
    have hknd : ((insertAll e.results rs).map Prod.fst).Nodup :=
      insertAll_keys_nodup rs e.results (hres ▸ localSeed_keys_nodup lo)
    refine ⟨hrun, ?_, ?_⟩
    · intro p hp
      exact toCollection_get _ p.1 p.2 hknd
        (insertAll_lookup rs e.results hnodup p hp)
    · intro c m hm
      exact toCollection_get _ c (RVal.err m) hknd
        (insertAll_lookup rs e.results hnodup (c, RVal.err m) hm)

theorem c2_witness :
    requestAllInit 3 (.ok (.num 1)) =
      .pending ⟨[(-1, .ok (.num 1))], 3⟩ ∧
    run (raState "n" ⟨[(-1, .ok (.num 1))], 3⟩)
        ([(0, RVal.ok (.num 2)), (1, RVal.err "boom")].map (replyEvent "n")) =
      (⟨[], [], []⟩, [.resolvedAll "n"
        (insertAll [(-1, .ok (.num 1))]
          [(0, RVal.ok (.num 2)), (1, RVal.err "boom")])]) ∧
    (toCollection (insertAll [(-1, .ok (.num 1))]
        [(0, RVal.ok (.num 2)), (1, RVal.err "boom")])).get 1 =
      some ⟨1, .error, .undef, some "boom"⟩ ∧
    step (raState "n" ⟨[(-1, .ok (.num 1))], 3⟩) (.allTimeout "n") =
      (⟨[], [], []⟩, [.resolvedAll "n" [(-1, .ok (.num 1))]]) := by
  have h := c2_requestAll_resolves_never_rejects 3 (.ok (.num 1))
    ⟨[(-1, .ok (.num 1))], 3⟩ "n" (by decide)
  have h3 := h.2.2 [(0, RVal.ok (.num 2)), (1, RVal.err "boom")]
    (by decide) (by decide) (by decide)
  exact ⟨by decide, h3.1, h3.2.2 1 "boom" (by decide), h.2.1 [(-1, .ok (.num 1))]⟩

/-- C3 counterexample: with one cluster (the caller alone) and a local
handler returning 5, the seeded local entry is keyed by the sentinel `-1`.
The caller's actual unit id is a real cluster id (0 here), so
`ResultCollection.get` at the caller's unit id does not find the seeded
entry — only `get (-1)` does. -/
theorem c3_counterexample :
    requestAllInit 1 (.ok (.num 5)) =
      .immediate (toCollection [(-1, .ok (.num 5))]) ∧
    (toCollection [(-1, .ok (.num 5))]).get 0 = none ∧
    (toCollection [(-1, .ok (.num 5))]).get (-1) =
      some ⟨-1, .ok, .num 5, none⟩ := by
  decide

/-- C3 amended: the caller's registered handler is invoked in-process and
its outcome is seeded into the result set at registration time, before
any event is processed — but under the sentinel key `-1`, not the
caller's unit id; remote replies are keyed by the responding cluster id;
`get (-1)` finds the seeded local entry. -/
theorem c3_local_seed_keyed_minus_one (total : Nat) (lo : LocalOutcome)
    (e : PendingAllEntry) (n : String) (v : Val) (c : Int) (r : RVal)
    (hreg : requestAllInit total lo = .pending e) :
    e.results = localSeed lo ∧
    (lo = .ok v → alookup e.results (-1) = some (.ok v)) ∧
    (lo = .threw "m" → alookup e.results (-1) = some (.err "m")) ∧
    (∀ (res : List (Int × RVal)) (exp : Nat),
      step (raState n ⟨res, exp⟩) (replyEvent n (c, r)) =
        if (aset res c r).length ≥ exp then
          (⟨[], [], []⟩, [.resolvedAll n (aset res c r)])
        else (raState n ⟨aset res c r, exp⟩, [])) ∧
    (∀ res : List (Int × RVal), alookup (aset res c r) c = some r) ∧
    (lo = .ok v →
      (toCollection e.results).get (-1) = some ⟨-1, .ok, v, none⟩) := by
  obtain ⟨hres, _, _⟩ := requestAllInit_pending total lo e hreg
  refine ⟨hres, ?_, ?_, ?_, ?_, ?_⟩
  · intro hlo
    subst hlo
    rw [hres]
    simp [localSeed, alookup]
  · intro hlo
    subst hlo
    rw [hres]
    simp [localSeed, alookup]
  · intro res exp
    exact step_raState_reply n res exp c r
  · intro res
    rw [alookup_aset]
    simp
  · intro hlo
    subst hlo
    rw [hres]
    simp [localSeed, toCollection, toClusterResult, ResultCollection.get]

theorem c3_witness :
    requestAllInit 4 (.ok (.num 7)) =
      .pending ⟨[(-1, .ok (.num 7))], 4⟩ ∧
    alookup (⟨[(-1, RVal.ok (Val.num 7))], 4⟩ : PendingAllEntry).results
      (-1) = some (.ok (.num 7)) ∧
    (toCollection
        (⟨[(-1, RVal.ok (Val.num 7))], 4⟩ : PendingAllEntry).results).get
      (-1) = some ⟨-1, .ok, .num 7, none⟩ := by
  have h := c3_local_seed_keyed_minus_one 4 (.ok (.num 7))
    ⟨[(-1, .ok (.num 7))], 4⟩ "n" (.num 7) 0 (.ok (.num 0)) (by decide)
  exact ⟨by decide, h.2.1 rfl, h.2.2.2.2.2 rfl⟩

end DiscordCluster
